import Mathlib

/-!
Verification development for the ranking/engagement pipeline and the
deduplicating download orchestrator of `pixivpy3/PixivRankAnalyzer.py`.

Strings are embedded as `List Char`; machine floats are idealised as `ℚ`
(rounding to two decimals is modelled explicitly); the filesystem, the
platform client and the log sink are embedded as explicit state / oracles.
-/

/-! ### Filename Sanitizer (`PixivRankAnalyzer._sanitize_filename`) -/

/-- The path-hostile characters replaced by the sanitizer:
the character class in the source regex. -/
def forbiddenChar (c : Char) : Bool :=
  c == '\\' || c == '/' || c == ':' || c == '*' || c == '?' ||
  c == '\"' || c == '<' || c == '>' || c == '|'

/-- Model of the whitespace set stripped by Python `str.strip()`
(the Unicode whitespace code points). -/
def isPySpace (c : Char) : Bool :=
  c == ' ' || c == '\t' || c == '\n' || c == '\r' ||
  c.toNat == 0x0B || c.toNat == 0x0C ||
  c.toNat == 0x1C || c.toNat == 0x1D || c.toNat == 0x1E || c.toNat == 0x1F ||
  c.toNat == 0x85 || c.toNat == 0xA0 || c.toNat == 0x1680 ||
  (0x2000 ≤ c.toNat && c.toNat ≤ 0x200A) ||
  c.toNat == 0x2028 || c.toNat == 0x2029 || c.toNat == 0x202F ||
  c.toNat == 0x205F || c.toNat == 0x3000

/-- Model of `unicodedata.normalize('NFKC', ·)` restricted to the
code points relevant here: the fullwidth ASCII variants U+FF01–U+FF5E carry
the Unicode `<wide>` compatibility decomposition to their ASCII counterpart
(code point minus 0xFEE0), and U+FF70 (halfwidth prolonged sound mark)
maps to U+30FC; every other code point used in this development
(ASCII and U+30FC itself) is NFKC-invariant, modelled as the identity. -/
def nfkcChar (c : Char) : Char :=
  if 0xFF01 ≤ c.toNat && c.toNat ≤ 0xFF5E then Char.ofNat (c.toNat - 0xFEE0)
  else if c.toNat == 0xFF70 then 'ー'
  else c

/-- Python `str.strip()`: drop leading and trailing whitespace. -/
def pyStrip (s : List Char) : List Char :=
  ((s.dropWhile isPySpace).reverse.dropWhile isPySpace).reverse

/-- `PixivRankAnalyzer._sanitize_filename`: replace newlines with spaces,
replace path-hostile characters with `ー`, delete control characters below
0x20, strip surrounding whitespace, apply NFKC normalization, and
truncate to `max_length` characters. -/
def sanitize_filename (text : List Char) (max_length : Nat) : List Char :=
  let s1 := text.map (fun c => if c == '\n' then ' ' else c)
  let s2 := s1.map (fun c => if forbiddenChar c then 'ー' else c)
  let s3 := s2.filter (fun c => !(c.toNat < 0x20 : Bool))
  let s4 := pyStrip s3
  let s5 := s4.map nfkcChar
  s5.take max_length

/-! ### Engagement Calculator (`PixivRankAnalyzer.calculate_engagement`) -/

/-- A raw ranking entry as consumed by `calculate_engagement`
(the fields of `illust` that the method reads). -/
structure Illust where
  id : Nat
  title : List Char
  user_name : List Char
  type : String
  total_view : Nat
  total_bookmarks : Nat
deriving DecidableEq, Repr

/-- A scored entry as produced by `calculate_engagement`
(the dict appended to `engagement_list`). -/
structure RankedItem where
  id : Nat
  title : List Char
  user_name : List Char
  view : Nat
  bookmark : Nat
  rate : ℚ
deriving DecidableEq, Repr

/-- Round-half-to-even on ℚ (the rounding used by Python `round`). -/
def roundHalfEven (q : ℚ) : ℤ :=
  if q - ⌊q⌋ < 1/2 then ⌊q⌋
  else if (1 : ℚ)/2 < q - ⌊q⌋ then ⌊q⌋ + 1
  else if ⌊q⌋ % 2 == 0 then ⌊q⌋ else ⌊q⌋ + 1

/-- `round(·, 2)`: round to two decimal places. -/
def round2 (q : ℚ) : ℚ := (roundHalfEven (q * 100) : ℚ) / 100

/-- The engagement rate of line 218 of the source:
`round((bookmark / view) * 100, 2) if view > 0 else 0`. -/
def engagementRate (view bookmark : Nat) : ℚ :=
  if 0 < view then round2 ((bookmark : ℚ) / (view : ℚ) * 100) else 0

/-- The per-entry keep condition of the `calculate_engagement` loop:
the entry is kept iff it is not skipped by the content-type test, is not
of type `ugoira`, and meets both inclusive thresholds. -/
def keepIllust (content_type_value : String) (min_views min_bookmarks : Nat)
    (il : Illust) : Bool :=
  (content_type_value == "all" || il.type == content_type_value) &&
  il.type != "ugoira" &&
  (min_views ≤ il.total_view && min_bookmarks ≤ il.total_bookmarks)

/-- The dict built for a surviving entry. -/
def toRankedItem (il : Illust) : RankedItem :=
  { id := il.id, title := il.title, user_name := il.user_name,
    view := il.total_view, bookmark := il.total_bookmarks,
    rate := engagementRate il.total_view il.total_bookmarks }

/-- `engagement_list` as built by the loop of `calculate_engagement`. -/
def engagementList (content_type_value : String) (min_views min_bookmarks : Nat)
    (illusts : List Illust) : List RankedItem :=
  (illusts.filter (keepIllust content_type_value min_views min_bookmarks)).map toRankedItem

/-- The descending-rate comparison used as the sort key
(`key=lambda x: x['rate'], reverse=True`). -/
def rateGe (a b : RankedItem) : Prop := b.rate ≤ a.rate

instance : DecidableRel rateGe := fun a b => inferInstanceAs (Decidable (b.rate ≤ a.rate))

instance : IsTotal RankedItem rateGe := ⟨fun a b => le_total b.rate a.rate⟩

instance : IsTrans RankedItem rateGe := ⟨fun _ _ _ h1 h2 => le_trans h2 h1⟩

/-- `calculate_engagement`: build `engagement_list`, then
`sorted(engagement_list, key=lambda x: x['rate'], reverse=True)` —
a stable sort, descending by rate. -/
def calculate_engagement (content_type_value : String) (min_views min_bookmarks : Nat)
    (illusts : List Illust) : List RankedItem :=
  List.insertionSort rateGe (engagementList content_type_value min_views min_bookmarks illusts)

/-- Sample raw entries: the spec's scenario
`[{view:500,bookmark:600},{view:2000,bookmark:100}]`. -/
def sampleIllustLow : Illust :=
  { id := 1, title := ['a'], user_name := ['u'], type := "illust",
    total_view := 500, total_bookmarks := 600 }

def sampleIllustHigh : Illust :=
  { id := 2, title := ['b'], user_name := ['v'], type := "illust",
    total_view := 2000, total_bookmarks := 100 }

/-! ### Association maps: Python dict assignment / lookup semantics -/

/-- Lookup in an association list: first binding wins. -/
def alLookup {α β : Type} [DecidableEq α] (l : List (α × β)) (k : α) : Option β :=
  match l with
  | [] => none
  | e :: rest => if e.1 = k then some e.2 else alLookup rest k

/-- Python dict assignment `d[k] = v`: insert, overwriting any old binding. -/
def alInsert {α β : Type} [DecidableEq α] (l : List (α × β)) (k : α) (v : β) :
    List (α × β) :=
  (k, v) :: l.filter (fun e => !(decide (e.1 = k)))

/-! ### Duplicate Index (`self.existing_hashes`) and its seeding -/

/-- A content digest (`_calculate_file_hash` result, idealised). -/
abbrev Digest := Nat

/-- The Duplicate Index: the dict `{digest: filename}`. -/
abbrev Index := List (Digest × String)

def idxLookup (idx : Index) (d : Digest) : Option String := alLookup idx d

def idxInsert (idx : Index) (d : Digest) (n : String) : Index := alInsert idx d n

/-- One entry of the download directory as observed by
`_load_existing_hashes`: its name, whether `os.path.isfile` holds, and the
result of `_calculate_file_hash` (`none` models a read failure, which the
hasher logs, absorbs, and reports as `None`). -/
structure DirEntry where
  name : String
  isFile : Bool
  hashResult : Option Digest
deriving DecidableEq, Repr

/-- The body of the `for filename in os.listdir(...)` loop of
`_load_existing_hashes`. -/
def seedStep (idx : Index) (e : DirEntry) : Index :=
  if e.isFile then
    match e.hashResult with
    | some d => idxInsert idx d e.name
    | none => idx
  else idx

/-- `PixivRankAnalyzer._load_existing_hashes`: reset the index to empty; when
the download directory does not exist, stop there; otherwise fold `seedStep`
over the listing. `prior` is the previous index value, discarded by the
initial reset; `none` models a missing directory. -/
def load_existing_hashes (_prior : Index) (listing : Option (List DirEntry)) : Index :=
  let reset : Index := []
  match listing with
  | none => reset
  | some entries => entries.foldl seedStep reset

/-! ### Per-page download loop of `download_images` (lines 289–349) -/

/-- Observable events of the per-page loop, in program order. -/
inductive Ev where
  | download
  | sleep
  | warn (attempt : Nat) (file : String)
  | errlog (file : String)
  | remove (file : String)
deriving DecidableEq, Repr

/-- The observable result of one `self.api.download` invocation, with the
hash of the file it wrote: the call returned truthy and the file hashed to
`h` (`none` models a hash failure), returned falsy (no content), or raised. -/
inductive AttemptOutcome where
  | ok (h : Option Digest)
  | noContent
  | err
deriving DecidableEq, Repr

/-- The per-page state after the loop: `is_page_downloaded`, `is_duplicate`,
the contribution to `success_count`, the updated index, and the trace. -/
structure PageResult where
  downloaded : Bool
  duplicate : Bool
  succ : Nat
  idx : Index
  trace : List Ev
deriving Repr

/-- The `for attempt in range(3)` body: `outs k` is the outcome of the
download invocation at 0-based attempt number `k`.  On a truthy download the
file is hashed; a digest already in the index evicts the file (`os.remove`)
and marks the page duplicate (the loop then breaks with no sleep and no
success increment); otherwise the digest is registered (when the hash
succeeded), the success counter incremented, and a pause taken.  A falsy
download ends the page with no success increment.  A raised error logs a
warning naming the 1-based attempt and the file, pauses, and retries. -/
def attemptLoop (outs : Nat → AttemptOutcome) (name : String) :
    Nat → Nat → Index → PageResult
  | 0, _, idx => ⟨false, false, 0, idx, []⟩
  | fuel + 1, k, idx =>
    match outs k with
    | .ok hsh =>
      match hsh with
      | some d =>
        if (idxLookup idx d).isSome then
          ⟨false, true, 0, idx, [.download, .remove name]⟩
        else
          ⟨true, false, 1, idxInsert idx d name, [.download, .sleep]⟩
      | none => ⟨true, false, 1, idx, [.download, .sleep]⟩
    | .noContent => ⟨true, false, 0, idx, [.download]⟩
    | .err =>
      let r := attemptLoop outs name fuel (k + 1) idx
      ⟨r.downloaded, r.duplicate, r.succ, r.idx,
        .download :: .warn (k + 1) name :: .sleep :: r.trace⟩

/-- A page of a work: its destination filename, whether a file already
exists at the destination path, and (when it exists) the hash of that file. -/
structure PageSpec where
  name : String
  fileExists : Bool
  preHash : Option Digest
deriving DecidableEq, Repr

/-- Per-page processing: the pre-transfer existing-file duplicate check of
lines 293–300 (an existing file whose hash is in the index is an immediate
skip counted as success), then the bounded retry loop, then the final
error log of lines 338–339 when the page neither downloaded nor resolved
as a duplicate. -/
def preDupCheck (p : PageSpec) (idx : Index) : Bool :=
  p.fileExists && (match p.preHash with
    | some h2 => (idxLookup idx h2).isSome
    | none => false)

def processPage (outs : Nat → AttemptOutcome) (p : PageSpec) (idx : Index) :
    PageResult :=
  if preDupCheck p idx then ⟨true, true, 1, idx, []⟩
  else
    let r := attemptLoop outs p.name 3 0 idx
    if !r.downloaded && !r.duplicate then
      ⟨r.downloaded, r.duplicate, r.succ, r.idx, r.trace ++ [.errlog p.name]⟩
    else r

/-- The result of the per-item page loop: `success_count`, the final index,
and the concatenated trace. -/
structure ItemResult where
  succ : Nat
  idx : Index
  trace : List Ev
deriving Repr

/-- The `for idx, url in enumerate(image_urls)` loop: pages processed
strictly in order, each with its own attempt oracle, threading the index. -/
def processPages : List (PageSpec × (Nat → AttemptOutcome)) → Index → ItemResult
  | [], idx => ⟨0, idx, []⟩
  | (p, outs) :: rest, idx =>
    let r := processPage outs p idx
    let s := processPages rest r.idx
    ⟨r.succ + s.succ, s.idx, r.trace ++ s.trace⟩

/-- The per-item outcome classification of lines 341–349. -/
inductive ItemOutcome where
  | fullSuccess
  | noTargets
  | partialSuccess
  | totalFailure
deriving DecidableEq, Repr

/-- Classify an item from its `success_count` and its number of page URLs:
full success iff every page counted as a success, no-targets on zero URLs,
partial on a positive count, and the failure branch (whose own message reads
"download failed / all duplicate-skipped") otherwise. -/
def classifyItem (success_count numUrls : Nat) : ItemOutcome :=
  if success_count = numUrls ∧ 0 < numUrls then .fullSuccess
  else if numUrls = 0 then .noTargets
  else if 0 < success_count then .partialSuccess
  else .totalFailure

/-- Count of download invocations in a trace. -/
def countDownloads (t : List Ev) : Nat := t.countP (fun e => decide (e = Ev.download))

/-- Scan of a trace checking that between any two download events a sleep
event occurs (the claim-C7 reading of "every transfer is followed by a
randomized pause before the next network operation"). -/
def pausedBetweenAux : Bool → List Ev → Bool
  | _, [] => true
  | needSleep, e :: rest =>
    match e with
    | .sleep => pausedBetweenAux false rest
    | .download => if needSleep then false else pausedBetweenAux true rest
    | _ => pausedBetweenAux needSleep rest

def pausesBetweenDownloads (t : List Ev) : Bool := pausedBetweenAux false t

/-- Scan of a trace checking that every retry warning is immediately
followed by a sleep event. -/
def warnsPaused : List Ev → Bool
  | [] => true
  | Ev.warn _ _ :: rest =>
    match rest with
    | Ev.sleep :: _ => warnsPaused rest
    | _ => false
  | _ :: rest => warnsPaused rest

/-! ### Filesystem-level session model (for the cross-run dedup behaviour) -/

/-- A file's byte content, abstracted. -/
abbrev Content := Nat

/-- The download directory: filename to content. -/
abbrev FS := List (String × Content)

/-- The content digest (`_calculate_file_hash`), idealised as injective:
SHA-256 collision resistance is modelled by taking the digest to be the
content itself; in this layer every hash computation succeeds. -/
def hashC (c : Content) : Digest := c

def lookupFS (fs : FS) (n : String) : Option Content := alLookup fs n

def insertFS (fs : FS) (n : String) (c : Content) : FS := alInsert fs n c

def removeFS (fs : FS) (n : String) : FS := fs.filter (fun e => !(decide (e.1 = n)))

/-- The directory entry observed for a file of the download directory:
a regular file whose hash computation succeeds. -/
def fsEntry (e : String × Content) : DirEntry :=
  { name := e.1, isFile := true, hashResult := some (hashC e.2) }

/-- Seeding of the Duplicate Index at session start
(`_load_existing_hashes` over the actual directory contents, with every
file regular and every hash computation succeeding). -/
def seedFS (fs : FS) : Index :=
  load_existing_hashes [] (some (fs.map fsEntry))

/-- What one `self.api.download(url, ...)` call does in this layer:
returns truthy having written content `c`, returns falsy (no content),
or raises. The source ranking being fixed, the outcome depends only on
the url. -/
inductive DLResult where
  | success (c : Content)
  | noContent
  | err
deriving DecidableEq, Repr

/-- The resolution of one page in this layer. -/
inductive PageStatus where
  | preSkipped
  | accepted
  | dupEvicted
  | noBytes
  | failed
deriving DecidableEq, Repr

/-- Result of one page step: the directory, the index, the page's
resolution, and how many file writes and download invocations occurred. -/
structure StepR where
  fs : FS
  idx : Index
  status : PageStatus
  writes : Nat
  downloads : Nat
deriving Repr

/-- The `for attempt in range(3)` loop at filesystem level: a truthy
download writes the file; if its digest is already in the index the file is
deleted and the page is a duplicate skip, otherwise the digest is registered
and the page accepted; a falsy download ends the page; a raised error
retries until the attempts are exhausted, leaving the page failed. -/
def dlLoopFS (fetch : String → DLResult) (url name : String) :
    Nat → FS → Index → StepR
  | 0, fs, idx => ⟨fs, idx, .failed, 0, 0⟩
  | fuel + 1, fs, idx =>
    match fetch url with
    | .success c =>
      let fs2 := insertFS fs name c
      if (idxLookup idx (hashC c)).isSome then
        ⟨removeFS fs2 name, idx, .dupEvicted, 1, 1⟩
      else
        ⟨fs2, idxInsert idx (hashC c) name, .accepted, 1, 1⟩
    | .noContent => ⟨fs, idx, .noBytes, 0, 1⟩
    | .err =>
      let r := dlLoopFS fetch url name fuel fs idx
      ⟨r.fs, r.idx, r.status, r.writes, r.downloads + 1⟩

/-- One page of `download_images` at filesystem level: the pre-transfer
check of lines 293–300 (a file already at the destination path whose hash
is in the index is an immediate skip, no transfer), then the retry loop. -/
def pageStepFS (fetch : String → DLResult) (url name : String) (fs : FS)
    (idx : Index) : StepR :=
  match lookupFS fs name with
  | some c =>
    if (idxLookup idx (hashC c)).isSome then ⟨fs, idx, .preSkipped, 0, 0⟩
    else dlLoopFS fetch url name 3 fs idx
  | none => dlLoopFS fetch url name 3 fs idx

/-- Result of a download session: final directory and index, the per-page
resolutions in order, and the totals of file writes and download calls. -/
structure SessionR where
  fs : FS
  idx : Index
  statuses : List PageStatus
  writes : Nat
  downloads : Nat
deriving Repr

/-- The page loop over all selected `(url, destination filename)` pairs,
threading directory and index. -/
def runPagesFS (fetch : String → DLResult) :
    List (String × String) → FS → Index → SessionR
  | [], fs, idx => ⟨fs, idx, [], 0, 0⟩
  | (url, name) :: rest, fs, idx =>
    let r := pageStepFS fetch url name fs idx
    let s := runPagesFS fetch rest r.fs r.idx
    ⟨s.fs, s.idx, r.status :: s.statuses, r.writes + s.writes,
      r.downloads + s.downloads⟩

/-- One run of the orchestrator over a fixed page list: seed the Duplicate
Index from the directory, then process every page in order. -/
def runSessionFS (fetch : String → DLResult) (pages : List (String × String))
    (fs : FS) : SessionR :=
  runPagesFS fetch pages fs (seedFS fs)

/-! ### `download_images` entry guards (lines 233–248) -/

/-- Orchestrator-visible state across a `download_images` call: whether the
download directory exists, its contents, and the object's Duplicate Index
attribute (`self.existing_hashes`). -/
structure World where
  dirExists : Bool
  fs : FS
  idx : Index
deriving Repr

/-- Coarse side-effect events of a `download_images` call. -/
inductive OrchEv where
  | mkdir
  | hashRead
  | netDownload
  | fileWrite
deriving DecidableEq, Repr

/-- `download_images(sorted_list)`: raises when the client handle is absent;
returns immediately when the selected list is empty or downloading is
disabled; otherwise creates the directory if missing, re-seeds the Duplicate
Index by hashing every existing file, and drives the page loop over the
selected items' pages (`pagesOf` resolves an item's page targets, `fetch`
is the platform download operation). -/
def download_images (apiReady : Bool) (enable_download : Bool) (download_count : Nat)
    (pagesOf : RankedItem → List (String × String)) (fetch : String → DLResult)
    (sorted_list : List RankedItem) (w : World) :
    Except String (World × List OrchEv) :=
  if !apiReady then Except.error "API not authenticated"
  else if sorted_list.isEmpty || !enable_download then Except.ok (w, [])
  else
    let mkdirEvs : List OrchEv := if w.dirExists then [] else [.mkdir]
    let s := runPagesFS fetch ((sorted_list.take download_count).flatMap pagesOf)
      w.fs (seedFS w.fs)
    Except.ok ({ dirExists := true, fs := s.fs, idx := s.idx },
      mkdirEvs ++ w.fs.map (fun _ => OrchEv.hashRead) ++
      List.replicate s.downloads OrchEv.netDownload ++
      List.replicate s.writes OrchEv.fileWrite)

/-! ### Theorems -/

/-- Rounding to two decimals is the identity on integers. -/
theorem round2_intCast (n : ℤ) : round2 (n : ℚ) = n := by
  have h : ((n : ℚ) * 100) = ((n * 100 : ℤ) : ℚ) := by push_cast; ring
  simp only [round2, roundHalfEven, h, Int.floor_intCast, sub_self]
  norm_num

theorem toNat_ofNat_small : ∀ m : Nat, m < 0x7F → (Char.ofNat m).toNat = m := by decide

theorem nfkcChar_toNat_ge (c : Char) (h : 0x20 ≤ c.toNat) : 0x20 ≤ (nfkcChar c).toNat := by
  unfold nfkcChar
  split
  · next hc =>
    simp only [Bool.and_eq_true, decide_eq_true_eq] at hc
    rw [toNat_ofNat_small _ (by omega)]
    omega
  · split
    · decide
    · exact h

theorem nfkcChar_ascii (c : Char) (h : c.toNat < 0x80) : nfkcChar c = c := by
  unfold nfkcChar
  rw [if_neg, if_neg]
  · simp only [beq_iff_eq]
    omega
  · simp only [Bool.and_eq_true, decide_eq_true_eq, not_and]
    omega

theorem mem_pyStrip {c : Char} {s : List Char} (h : c ∈ pyStrip s) : c ∈ s := by
  unfold pyStrip at h
  have h1 := List.mem_reverse.mp h
  have h2 := List.Sublist.mem h1 (List.dropWhile_sublist isPySpace)
  have h3 := List.mem_reverse.mp h2
  exact List.Sublist.mem h3 (List.dropWhile_sublist isPySpace)

/-- Every character of the sanitizer's output before truncation comes from
the post-filter list via `nfkcChar`. -/
theorem sanitize_mem_decompose {c : Char} {text : List Char} {max_length : Nat}
    (h : c ∈ sanitize_filename text max_length) :
    ∃ d, c = nfkcChar d ∧
      ¬ d.toNat < 0x20 ∧
      d ∈ (text.map (fun c => if c == '\n' then ' ' else c)).map
            (fun c => if forbiddenChar c then 'ー' else c) := by
  unfold sanitize_filename at h
  have h1 := List.mem_of_mem_take h
  obtain ⟨d, hd, rfl⟩ := List.mem_map.mp h1
  have h2 := mem_pyStrip hd
  have h3 := List.mem_filter.mp h2
  refine ⟨d, rfl, ?_, h3.1⟩
  simpa using h3.2

/-- C2 (counterexample): the claim that the sanitizer's output never contains
a path-hostile character fails, because NFKC normalization runs after the
replacement step and maps the fullwidth solidus U+FF0F to `/`: on the
single-character input U+FF0F with max length 10 the output is exactly `/`. -/
theorem sanitize_filename_fullwidth_counterexample :
    forbiddenChar '/' = true ∧
    sanitize_filename [Char.ofNat 0xFF0F] 10 = ['/'] ∧
    '/' ∈ sanitize_filename [Char.ofNat 0xFF0F] 10 := by decide

/-- C2 (amended): for every input and maximum length, the sanitizer's output
has at most `max_length` characters, contains no control character below 0x20
and no literal newline; and if the input is ASCII-only (so NFKC cannot
reintroduce a path-hostile character from a fullwidth compatibility variant),
the output contains none of the path-hostile characters. -/
theorem sanitize_filename_safe (text : List Char) (max_length : Nat) :
    (sanitize_filename text max_length).length ≤ max_length ∧
    (∀ c ∈ sanitize_filename text max_length, ¬ c.toNat < 0x20) ∧
    (∀ c ∈ sanitize_filename text max_length, c ≠ '\n') ∧
    ((∀ c ∈ text, c.toNat < 0x80) →
      ∀ c ∈ sanitize_filename text max_length, forbiddenChar c = false) := by
  have key : ∀ c ∈ sanitize_filename text max_length, ¬ c.toNat < 0x20 := by
    intro c hc
    obtain ⟨d, rfl, hd20, _⟩ := sanitize_mem_decompose hc
    have := nfkcChar_toNat_ge d (by omega)
    omega
  refine ⟨?_, key, ?_, ?_⟩
  · unfold sanitize_filename
    exact List.length_take_le _ _
  · intro c hc hne
    subst hne
    exact key _ hc (by decide)
  · intro hascii c hc
    obtain ⟨d, rfl, hd20, hdmem⟩ := sanitize_mem_decompose hc
    obtain ⟨e, he, hde⟩ := List.mem_map.mp hdmem
    obtain ⟨f, hf, hef⟩ := List.mem_map.mp he
    have hf80 : f.toNat < 0x80 := hascii f hf
    have he80 : e.toNat < 0x80 := by
      subst hef
      split
      · decide
      · exact hf80
    by_cases hfe : forbiddenChar e = true
    · rw [← hde, if_pos hfe]
      decide
    · rw [← hde, if_neg hfe, nfkcChar_ascii e he80]
      simpa using hfe

/-- C3: every output entry of the Engagement Calculator meets both inclusive
thresholds and originates from an input entry whose content type matches the
filter (unless the filter is "all") and is not of the unsupported `ugoira`
format; conversely every input entry passing the keep condition (which is
inclusive at the thresholds) appears in the output. -/
theorem calculate_engagement_filter (content_type_value : String)
    (min_views min_bookmarks : Nat) (illusts : List Illust) :
    (∀ x ∈ calculate_engagement content_type_value min_views min_bookmarks illusts,
      min_views ≤ x.view ∧ min_bookmarks ≤ x.bookmark) ∧
    (∀ x ∈ calculate_engagement content_type_value min_views min_bookmarks illusts,
      ∃ il ∈ illusts,
        x = toRankedItem il ∧
        (content_type_value = "all" ∨ il.type = content_type_value) ∧
        il.type ≠ "ugoira") ∧
    (∀ il ∈ illusts,
      keepIllust content_type_value min_views min_bookmarks il = true →
      toRankedItem il ∈ calculate_engagement content_type_value min_views min_bookmarks illusts) := by
  have memiff : ∀ x, x ∈ calculate_engagement content_type_value min_views min_bookmarks illusts ↔
      ∃ il ∈ illusts, keepIllust content_type_value min_views min_bookmarks il = true ∧
        toRankedItem il = x := by
    intro x
    unfold calculate_engagement engagementList
    rw [List.mem_insertionSort, List.mem_map]
    constructor
    · rintro ⟨il, hil, rfl⟩
      exact ⟨il, (List.mem_filter.mp hil).1, (List.mem_filter.mp hil).2, rfl⟩
    · rintro ⟨il, hmem, hkeep, rfl⟩
      exact ⟨il, List.mem_filter.mpr ⟨hmem, hkeep⟩, rfl⟩
  have keepiff : ∀ il, keepIllust content_type_value min_views min_bookmarks il = true ↔
      (content_type_value = "all" ∨ il.type = content_type_value) ∧
      il.type ≠ "ugoira" ∧
      min_views ≤ il.total_view ∧ min_bookmarks ≤ il.total_bookmarks := by
    intro il
    unfold keepIllust
    simp [Bool.and_eq_true, Bool.or_eq_true, and_assoc]
  refine ⟨?_, ?_, ?_⟩
  · intro x hx
    obtain ⟨il, _, hkeep, rfl⟩ := (memiff x).mp hx
    have h := (keepiff il).mp hkeep
    exact ⟨h.2.2.1, h.2.2.2⟩
  · intro x hx
    obtain ⟨il, hmem, hkeep, rfl⟩ := (memiff x).mp hx
    have h := (keepiff il).mp hkeep
    exact ⟨il, hmem, rfl, h.1, h.2.1⟩
  · intro il hmem hkeep
    exact (memiff _).mpr ⟨il, hmem, hkeep, rfl⟩

/-- Witness for C3: in the spec's scenario with thresholds 1000/50, the
high-view entry passes the keep condition and appears in the output. -/
theorem calculate_engagement_filter_witness :
    toRankedItem sampleIllustHigh ∈ calculate_engagement "all" 1000 50
      [sampleIllustLow, sampleIllustHigh] :=
  (calculate_engagement_filter "all" 1000 50 [sampleIllustLow, sampleIllustHigh]).2.2
    sampleIllustHigh (by decide) (by decide)

theorem insertionSort_rateGe_filter_rate (base : List RankedItem) (q : ℚ) :
    (List.insertionSort rateGe base).filter (fun x => decide (x.rate = q)) =
    base.filter (fun x => decide (x.rate = q)) := by
  set p : RankedItem → Bool := fun x => decide (x.rate = q) with hp
  have hmemp : ∀ x ∈ base.filter p, p x = true := fun x hx => List.of_mem_filter hx
  have hpair : (base.filter p).Pairwise rateGe := by
    apply List.pairwise_of_forall_mem_list
    intro a ha b hb
    have hqa : a.rate = q := by simpa [hp] using hmemp a ha
    have hqb : b.rate = q := by simpa [hp] using hmemp b hb
    unfold rateGe
    rw [hqa, hqb]
  have hsub : List.Sublist (base.filter p) (List.insertionSort rateGe base) :=
    List.sublist_insertionSort hpair (List.filter_sublist base)
  have hsub2 : List.Sublist (base.filter p) ((List.insertionSort rateGe base).filter p) := by
    have h2 := List.Sublist.filter p hsub
    rwa [List.filter_eq_self.mpr hmemp] at h2
  have hlen : ((List.insertionSort rateGe base).filter p).length = (base.filter p).length :=
    ((List.perm_insertionSort rateGe base).filter p).length_eq
  exact (List.Sublist.eq_of_length hsub2 hlen.symm).symm

/-- C4: the Engagement Calculator's output is sorted descending by rate, is a
permutation of the filtered list, and is stable: for every rate value, the
output entries carrying that rate are exactly the filtered input entries
carrying it, in the same order. -/
theorem calculate_engagement_sorted_stable (content_type_value : String)
    (min_views min_bookmarks : Nat) (illusts : List Illust) :
    List.Sorted rateGe
      (calculate_engagement content_type_value min_views min_bookmarks illusts) ∧
    (calculate_engagement content_type_value min_views min_bookmarks illusts).Perm
      (engagementList content_type_value min_views min_bookmarks illusts) ∧
    (∀ q : ℚ,
      (calculate_engagement content_type_value min_views min_bookmarks illusts).filter
          (fun x => decide (x.rate = q)) =
        (engagementList content_type_value min_views min_bookmarks illusts).filter
          (fun x => decide (x.rate = q))) :=
  ⟨List.sorted_insertionSort rateGe _, List.perm_insertionSort rateGe _,
    fun q => insertionSort_rateGe_filter_rate
      (engagementList content_type_value min_views min_bookmarks illusts) q⟩

/-- C5: every entry of the Engagement Calculator's output carries the rate
`round2(bookmark / view * 100)` when its view count is positive, and rate `0`
when its view count is zero, so the division is guarded. -/
theorem calculate_engagement_rate_safe (content_type_value : String)
    (min_views min_bookmarks : Nat) (illusts : List Illust) :
    ∀ x ∈ calculate_engagement content_type_value min_views min_bookmarks illusts,
      (0 < x.view → x.rate = round2 ((x.bookmark : ℚ) / (x.view : ℚ) * 100)) ∧
      (x.view = 0 → x.rate = 0) := by
  intro x hx
  unfold calculate_engagement engagementList at hx
  rw [List.mem_insertionSort, List.mem_map] at hx
  obtain ⟨il, _, rfl⟩ := hx
  constructor
  · intro hpos
    show engagementRate il.total_view il.total_bookmarks =
      round2 ((il.total_bookmarks : ℚ) / (il.total_view : ℚ) * 100)
    unfold engagementRate
    rw [if_pos (show 0 < il.total_view from hpos)]
  · intro hzero
    have h0 : il.total_view = 0 := hzero
    show engagementRate il.total_view il.total_bookmarks = 0
    unfold engagementRate
    rw [if_neg (by omega : ¬ 0 < il.total_view)]

/-- Witness for C5: the surviving entry of the spec's scenario has positive
views and rate `round2(100/2000*100)`, which evaluates to `5`. -/
theorem calculate_engagement_rate_safe_witness :
    (toRankedItem sampleIllustHigh).rate =
      round2 (((toRankedItem sampleIllustHigh).bookmark : ℚ) /
        ((toRankedItem sampleIllustHigh).view : ℚ) * 100) ∧
    (toRankedItem sampleIllustHigh).rate = 5 := by
  have hmem : toRankedItem sampleIllustHigh ∈ calculate_engagement "all" 1000 50
      [sampleIllustHigh] := by
    simp [calculate_engagement, engagementList, keepIllust, sampleIllustHigh,
      List.insertionSort]
  have h := (calculate_engagement_rate_safe "all" 1000 50 [sampleIllustHigh]
    (toRankedItem sampleIllustHigh) hmem).1 (by decide)
  refine ⟨h, ?_⟩
  rw [h]
  have hv : (((toRankedItem sampleIllustHigh).bookmark : Nat) : ℚ) /
      (((toRankedItem sampleIllustHigh).view : Nat) : ℚ) * 100 = ((5 : ℤ) : ℚ) := by
    show ((100 : Nat) : ℚ) / ((2000 : Nat) : ℚ) * 100 = ((5 : ℤ) : ℚ)
    norm_num
  rw [hv, round2_intCast]
  norm_num

/-- Witness for C2 (amended) at the spec's own test vector: the input
containing the forbidden characters and embedded newlines, max length 10,
yields at most 10 characters with no forbidden character and no newline. -/
theorem sanitize_filename_safe_witness :
    (sanitize_filename ['a', '/', ':', '*', '?', '<', '>', '|', '\n', 'b', '\n', 'c'] 10).length ≤ 10 ∧
    (∀ c ∈ sanitize_filename ['a', '/', ':', '*', '?', '<', '>', '|', '\n', 'b', '\n', 'c'] 10,
      c ≠ '\n') ∧
    (∀ c ∈ sanitize_filename ['a', '/', ':', '*', '?', '<', '>', '|', '\n', 'b', '\n', 'c'] 10,
      forbiddenChar c = false) := by
  have h := sanitize_filename_safe ['a', '/', ':', '*', '?', '<', '>', '|', '\n', 'b', '\n', 'c'] 10
  exact ⟨h.1, h.2.2.1, h.2.2.2 (by decide)⟩

theorem alLookup_insert_self {α β : Type} [DecidableEq α]
    (l : List (α × β)) (k : α) (v : β) : alLookup (alInsert l k v) k = some v := by
  simp [alInsert, alLookup]

theorem alLookup_cons {α β : Type} [DecidableEq α] (e : α × β) (rest : List (α × β))
    (k : α) : alLookup (e :: rest) k = if e.1 = k then some e.2 else alLookup rest k := rfl

theorem alLookup_filter_ne {α β : Type} [DecidableEq α]
    (l : List (α × β)) (k k2 : α) (hne : k2 ≠ k) :
    alLookup (l.filter (fun e => !(decide (e.1 = k)))) k2 = alLookup l k2 := by
  induction l with
  | nil => rfl
  | cons e rest ih =>
    by_cases he : e.1 = k
    · rw [List.filter_cons_of_neg (by simp [he])]
      rw [ih, alLookup_cons]
      rw [if_neg (by rw [he]; exact fun h2 => hne h2.symm)]
    · rw [List.filter_cons_of_pos (by simp [he])]
      rw [alLookup_cons, alLookup_cons]
      by_cases h2 : e.1 = k2
      · rw [if_pos h2, if_pos h2]
      · rw [if_neg h2, if_neg h2, ih]

theorem alLookup_insert_ne {α β : Type} [DecidableEq α]
    (l : List (α × β)) (k k2 : α) (v : β) (hne : k2 ≠ k) :
    alLookup (alInsert l k v) k2 = alLookup l k2 := by
  unfold alInsert
  rw [alLookup_cons]
  rw [if_neg (fun h2 => hne h2.symm)]
  exact alLookup_filter_ne l k k2 hne

theorem alLookup_insert_isSome {α β : Type} [DecidableEq α]
    (l : List (α × β)) (k k2 : α) (v : β) (h : (alLookup l k2).isSome) :
    (alLookup (alInsert l k v) k2).isSome := by
  by_cases he : k2 = k
  · subst he
    rw [alLookup_insert_self]
    rfl
  · rwa [alLookup_insert_ne l k k2 v he]

theorem alLookup_isSome_of_mem {α β : Type} [DecidableEq α]
    (l : List (α × β)) (k : α) (v : β) (h : (k, v) ∈ l) :
    (alLookup l k).isSome := by
  induction l with
  | nil => cases h
  | cons e rest ih =>
    unfold alLookup
    by_cases he : e.1 = k
    · rw [if_pos he]
      rfl
    · rw [if_neg he]
      rcases List.mem_cons.mp h with h1 | h2
      · exact absurd (congrArg Prod.fst h1.symm) he
      · exact ih h2

theorem foldl_seedStep_lookup (es : List DirEntry) (idx : Index) (d : Digest) :
    idxLookup (es.foldl seedStep idx) d =
      match es.reverse.find? (fun e => e.isFile && e.hashResult == some d) with
      | some e => some e.name
      | none => idxLookup idx d := by
  induction es generalizing idx with
  | nil => rfl
  | cons a es ih =>
    rw [List.foldl_cons, ih, List.reverse_cons, List.find?_append]
    cases hfind : es.reverse.find? (fun e => e.isFile && e.hashResult == some d) with
    | some e => rfl
    | none =>
      show _ = match [a].find? (fun e => e.isFile && e.hashResult == some d) with
        | some e => some e.name
        | none => idxLookup idx d
      unfold seedStep
      cases hf : a.isFile with
      | false => simp [List.find?, hf]
      | true =>
        cases hh : a.hashResult with
        | none => simp [List.find?, hf, hh]
        | some h2 =>
          by_cases hd : h2 = d
          · subst hd
            simp only [List.find?, hf, hh, Bool.true_and, beq_self_eq_true, if_pos]
            exact alLookup_insert_self idx h2 a.name
          · simp only [List.find?, hf, hh, Bool.true_and]
            rw [show ((some h2 == some d) : Bool) = false by simpa using hd]
            exact alLookup_insert_ne idx h2 d a.name (fun h3 => hd h3.symm)

/-- C10: seeding first discards the previous index; a missing download
directory yields the empty index without error; and after seeding, looking up
a digest returns exactly the name of the last-listed regular file whose hash
computation produced that digest (later-listed files overwrite earlier ones
on digest collision), and nothing else. -/
theorem load_existing_hashes_spec (prior prior2 : Index)
    (listing : Option (List DirEntry)) :
    (load_existing_hashes prior listing = load_existing_hashes prior2 listing) ∧
    (load_existing_hashes prior none = []) ∧
    (∀ entries, listing = some entries → ∀ d : Digest,
      idxLookup (load_existing_hashes prior listing) d =
        match entries.reverse.find? (fun e => e.isFile && e.hashResult == some d) with
        | some e => some e.name
        | none => none) := by
  refine ⟨rfl, rfl, ?_⟩
  rintro entries rfl d
  show idxLookup (entries.foldl seedStep []) d = _
  rw [foldl_seedStep_lookup]
  cases entries.reverse.find? (fun e => e.isFile && e.hashResult == some d) with
  | some e => rfl
  | none => rfl

/-- Witness for C10: seeding with a non-trivial prior index over a listing
with a non-file entry and a digest collision keeps only the last regular
file's binding and ignores the prior index. -/
theorem load_existing_hashes_spec_witness :
    idxLookup (load_existing_hashes [(1, "stale")]
      (some [⟨"f1", true, some 5⟩, ⟨"dir", false, some 5⟩, ⟨"f2", true, some 5⟩])) 5 =
      some "f2" ∧
    idxLookup (load_existing_hashes [(1, "stale")]
      (some [⟨"f1", true, some 5⟩, ⟨"dir", false, some 5⟩, ⟨"f2", true, some 5⟩])) 1 =
      none := by
  have h := load_existing_hashes_spec [(1, "stale")] []
    (some [⟨"f1", true, some 5⟩, ⟨"dir", false, some 5⟩, ⟨"f2", true, some 5⟩])
  refine ⟨(h.2.2 _ rfl 5).trans (by decide), (h.2.2 _ rfl 1).trans (by decide)⟩

theorem countDownloads_attemptLoop (outs : Nat → AttemptOutcome) (name : String) :
    ∀ fuel k idx, countDownloads (attemptLoop outs name fuel k idx).trace ≤ fuel := by
  intro fuel
  induction fuel with
  | zero => intro k idx; simp [attemptLoop, countDownloads]
  | succ n ih =>
    intro k idx
    unfold attemptLoop
    cases houts : outs k with
    | ok hsh =>
      cases hsh with
      | some d =>
        by_cases hd : (idxLookup idx d).isSome
        · simp [hd, countDownloads, List.countP_cons]
        · simp [hd, countDownloads, List.countP_cons]
      | none => simp [countDownloads, List.countP_cons]
    | noContent => simp [countDownloads, List.countP_cons]
    | err =>
      have h2 := ih (k + 1) idx
      simp only [countDownloads, List.countP_cons] at h2 ⊢
      simp
      omega

theorem countDownloads_processPage (outs : Nat → AttemptOutcome) (p : PageSpec)
    (idx : Index) : countDownloads (processPage outs p idx).trace ≤ 3 := by
  unfold processPage
  by_cases hpd : preDupCheck p idx = true
  · rw [if_pos hpd]
    simp [countDownloads]
  · rw [if_neg hpd]
    dsimp only
    split
    · simp only [countDownloads, List.countP_append]
      have h2 := countDownloads_attemptLoop outs p.name 3 0 idx
      simp only [countDownloads] at h2
      have h3 : List.countP (fun e => decide (e = Ev.download)) [Ev.errlog p.name] = 0 := by
        simp [List.countP_cons]
      omega
    · exact countDownloads_attemptLoop outs p.name 3 0 idx

/-- C6: a transfer error is retried for at most 3 download invocations in
total (for any page and any outcomes); when a page's file does not pre-exist
and all three attempts raise, each failed attempt logs a warning naming the
1-based attempt number and the file, the page ends failed (not downloaded,
not duplicate, zero success contribution, index unchanged) with a single
final error log; and the item loop continues past it: the remaining pages
are processed exactly as they would have been from the same index. -/
theorem transfer_retry_bounded (outs : Nat → AttemptOutcome) (p : PageSpec)
    (idx : Index) (rest : List (PageSpec × (Nat → AttemptOutcome)))
    (hpre : p.fileExists = false)
    (h0 : outs 0 = AttemptOutcome.err) (h1 : outs 1 = AttemptOutcome.err)
    (h2 : outs 2 = AttemptOutcome.err) :
    (∀ outs2 p2 idx2, countDownloads (processPage outs2 p2 idx2).trace ≤ 3) ∧
    processPage outs p idx =
      ⟨false, false, 0, idx,
        [.download, .warn 1 p.name, .sleep, .download, .warn 2 p.name, .sleep,
         .download, .warn 3 p.name, .sleep, .errlog p.name]⟩ ∧
    processPages ((p, outs) :: rest) idx =
      ⟨(processPages rest idx).succ, (processPages rest idx).idx,
        [.download, .warn 1 p.name, .sleep, .download, .warn 2 p.name, .sleep,
         .download, .warn 3 p.name, .sleep, .errlog p.name] ++
          (processPages rest idx).trace⟩ := by
  have hpage : processPage outs p idx =
      ⟨false, false, 0, idx,
        [.download, .warn 1 p.name, .sleep, .download, .warn 2 p.name, .sleep,
         .download, .warn 3 p.name, .sleep, .errlog p.name]⟩ := by
    unfold processPage
    rw [if_neg (by simp [preDupCheck, hpre])]
    show (if _ then _ else _) = _
    rw [show attemptLoop outs p.name 3 0 idx =
        ⟨false, false, 0, idx,
          [.download, .warn 1 p.name, .sleep, .download, .warn 2 p.name, .sleep,
           .download, .warn 3 p.name, .sleep]⟩ by
      unfold attemptLoop
      rw [h0]
      unfold attemptLoop
      rw [h1]
      unfold attemptLoop
      rw [h2]
      rfl]
    rfl
  refine ⟨fun outs2 p2 idx2 => countDownloads_processPage outs2 p2 idx2, hpage, ?_⟩
  have hcons : processPages ((p, outs) :: rest) idx =
      ⟨(processPage outs p idx).succ + (processPages rest (processPage outs p idx).idx).succ,
       (processPages rest (processPage outs p idx).idx).idx,
       (processPage outs p idx).trace ++ (processPages rest (processPage outs p idx).idx).trace⟩ :=
    rfl
  rw [hcons, hpage]
  simp

/-- Witness for C6: with an oracle that always raises, a page fails after
exactly three logged attempts and the next page is still processed. -/
theorem transfer_retry_bounded_witness :
    processPage (fun _ => AttemptOutcome.err) ⟨"a.png", false, none⟩ [] =
      ⟨false, false, 0, [],
        [.download, .warn 1 "a.png", .sleep, .download, .warn 2 "a.png", .sleep,
         .download, .warn 3 "a.png", .sleep, .errlog "a.png"]⟩ :=
  (transfer_retry_bounded (fun _ => AttemptOutcome.err) ⟨"a.png", false, none⟩ [] []
    rfl rfl rfl rfl).2.1

theorem warnsPaused_append_errlog (l : List Ev) (n : String) (h : warnsPaused l = true) :
    warnsPaused (l ++ [Ev.errlog n]) = true := by
  induction l with
  | nil => rfl
  | cons e rest ih =>
    cases e with
    | download => exact ih h
    | sleep => exact ih h
    | errlog f => exact ih h
    | remove f => exact ih h
    | warn a f =>
      cases rest with
      | nil => exact Bool.noConfusion h
      | cons e2 rest2 =>
        cases e2 with
        | sleep => exact ih h
        | download => exact Bool.noConfusion h
        | warn a2 f2 => exact Bool.noConfusion h
        | errlog f2 => exact Bool.noConfusion h
        | remove f2 => exact Bool.noConfusion h

theorem attemptLoop_pause_shape (outs : Nat → AttemptOutcome) (name : String) :
    ∀ fuel k idx,
      warnsPaused (attemptLoop outs name fuel k idx).trace = true ∧
      ((attemptLoop outs name fuel k idx).downloaded = true ∧
        0 < (attemptLoop outs name fuel k idx).succ →
        (attemptLoop outs name fuel k idx).trace.getLast? = some Ev.sleep) ∧
      ((attemptLoop outs name fuel k idx).duplicate = true →
        (attemptLoop outs name fuel k idx).trace.getLast? = some (Ev.remove name)) := by
  intro fuel
  induction fuel with
  | zero =>
    intro k idx
    exact ⟨rfl, fun h => absurd h.2 (by simp [attemptLoop]),
      fun h => Bool.noConfusion h⟩
  | succ n ih =>
    intro k idx
    unfold attemptLoop
    cases houts : outs k with
    | ok hsh =>
      cases hsh with
      | some d =>
        dsimp only
        by_cases hd : (idxLookup idx d).isSome
        · rw [if_pos hd]
          exact ⟨rfl, fun h => Bool.noConfusion h.1, fun _ => rfl⟩
        · rw [if_neg hd]
          exact ⟨rfl, fun _ => rfl, fun h => Bool.noConfusion h⟩
      | none => exact ⟨rfl, fun _ => rfl, fun h => Bool.noConfusion h⟩
    | noContent =>
      exact ⟨rfl, fun h => absurd h.2 (by simp), fun h => Bool.noConfusion h⟩
    | err =>
      have hr := ih (k + 1) idx
      refine ⟨hr.1, ?_, ?_⟩
      · intro h
        have hlast := hr.2.1 h
        show ([Ev.download, Ev.warn (k + 1) name, Ev.sleep] ++
          (attemptLoop outs name n (k + 1) idx).trace).getLast? = some Ev.sleep
        rw [List.getLast?_append, hlast]
        rfl
      · intro h
        have hlast := hr.2.2 h
        show ([Ev.download, Ev.warn (k + 1) name, Ev.sleep] ++
          (attemptLoop outs name n (k + 1) idx).trace).getLast? = some (Ev.remove name)
        rw [List.getLast?_append, hlast]
        rfl

/-- C7 (amended): in the per-page loop, every failed download attempt's
warning is immediately followed by a randomized pause, and a page that ends
with a newly accepted download ends its trace with a pause; but a download
resolving as a duplicate eviction ends with the file deletion and no pause,
and (per the counterexample) a no-content result is not followed by a pause
either. -/
theorem transfer_pause_after_accept_or_error (outs : Nat → AttemptOutcome)
    (p : PageSpec) (idx : Index) :
    warnsPaused (processPage outs p idx).trace = true ∧
    ((processPage outs p idx).downloaded = true ∧
      (processPage outs p idx).duplicate = false ∧ 0 < (processPage outs p idx).succ →
      (processPage outs p idx).trace.getLast? = some Ev.sleep) ∧
    (p.fileExists = false ∧ (processPage outs p idx).duplicate = true →
      (processPage outs p idx).trace.getLast? = some (Ev.remove p.name)) := by
  unfold processPage
  by_cases hpd : preDupCheck p idx = true
  · rw [if_pos hpd]
    refine ⟨rfl, ?_, ?_⟩
    · intro h
      exact absurd h.2.1 (by simp)
    · intro h
      exact absurd hpd (by simp [preDupCheck, h.1])
  · rw [if_neg hpd]
    dsimp only
    have hal := attemptLoop_pause_shape outs p.name 3 0 idx
    split
    · next hcond =>
      simp only [Bool.and_eq_true, Bool.not_eq_true'] at hcond
      refine ⟨warnsPaused_append_errlog _ _ hal.1, ?_, ?_⟩
      · intro h
        rw [show (⟨(attemptLoop outs p.name 3 0 idx).downloaded,
          (attemptLoop outs p.name 3 0 idx).duplicate, (attemptLoop outs p.name 3 0 idx).succ,
          (attemptLoop outs p.name 3 0 idx).idx,
          (attemptLoop outs p.name 3 0 idx).trace ++ [Ev.errlog p.name]⟩ :
            PageResult).downloaded = (attemptLoop outs p.name 3 0 idx).downloaded from rfl]
          at h
        rw [hcond.1] at h
        exact Bool.noConfusion h.1
      · intro h
        have h2 : (attemptLoop outs p.name 3 0 idx).duplicate = true := h.2
        rw [hcond.2] at h2
        exact Bool.noConfusion h2
    · refine ⟨hal.1, fun h => hal.2.1 ⟨h.1, h.2.2⟩, fun h => hal.2.2 h.2⟩

/-- C7 (counterexample): the claim that every download invocation is
followed by a randomized pause before the next network operation fails: a
first page resolving as an explicit no-content result is immediately
followed by the next page's download invocation with no pause between the
two downloads (the same holds for a duplicate eviction, whose trace ends
with the file deletion). -/
theorem transfer_pause_counterexample :
    pausesBetweenDownloads
      (processPages [(⟨"a.png", false, none⟩, fun _ => AttemptOutcome.noContent),
        (⟨"b.png", false, none⟩, fun _ => AttemptOutcome.ok none)] []).trace = false ∧
    (processPages [(⟨"a.png", false, none⟩, fun _ => AttemptOutcome.noContent),
      (⟨"b.png", false, none⟩, fun _ => AttemptOutcome.ok none)] []).trace =
      [Ev.download, Ev.download, Ev.sleep] := by
  constructor
  · rfl
  · rfl

/-- Witness for C7 (amended): a page whose download raises once and then
is accepted ends with a pause, and a page resolving as a duplicate
eviction ends with the deletion, not a pause. -/
theorem transfer_pause_witness :
    (processPage (fun k => if k = 0 then AttemptOutcome.err else AttemptOutcome.ok none)
      ⟨"a.png", false, none⟩ []).trace.getLast? = some Ev.sleep ∧
    (processPage (fun _ => AttemptOutcome.ok (some 5)) ⟨"a.png", false, none⟩
      [(5, "b.png")]).trace.getLast? = some (Ev.remove "a.png") := by
  constructor
  · exact (transfer_pause_after_accept_or_error
      (fun k => if k = 0 then AttemptOutcome.err else AttemptOutcome.ok none)
      ⟨"a.png", false, none⟩ []).2.1 (by refine ⟨rfl, rfl, ?_⟩; decide)
  · exact (transfer_pause_after_accept_or_error
      (fun _ => AttemptOutcome.ok (some 5)) ⟨"a.png", false, none⟩
      [(5, "b.png")]).2.2 ⟨rfl, by decide⟩

theorem attemptLoop_duplicate (outs : Nat → AttemptOutcome) (name : String) (d : Digest) :
    ∀ fuel k idx,
      (∃ j, k ≤ j ∧ j < k + fuel ∧ outs j = AttemptOutcome.ok (some d) ∧
        ∀ i, k ≤ i → i < j → outs i = AttemptOutcome.err) →
      (idxLookup idx d).isSome →
      (attemptLoop outs name fuel k idx).duplicate = true ∧
      (attemptLoop outs name fuel k idx).downloaded = false ∧
      (attemptLoop outs name fuel k idx).succ = 0 ∧
      (attemptLoop outs name fuel k idx).idx = idx ∧
      Ev.remove name ∈ (attemptLoop outs name fuel k idx).trace := by
  intro fuel
  induction fuel with
  | zero =>
    intro k idx hj _
    obtain ⟨j, hkj, hjlt, _, _⟩ := hj
    omega
  | succ n ih =>
    intro k idx hj hdup
    obtain ⟨j, hkj, hjlt, houtj, herr⟩ := hj
    unfold attemptLoop
    by_cases hjk : j = k
    · subst hjk
      rw [houtj]
      dsimp only
      rw [if_pos hdup]
      exact ⟨rfl, rfl, rfl, rfl, by simp⟩
    · have hkerr : outs k = AttemptOutcome.err := herr k le_rfl (by omega)
      rw [hkerr]
      dsimp only
      have h2 := ih (k + 1) idx
        ⟨j, by omega, by omega, houtj, fun i hi1 hi2 => herr i (by omega) hi2⟩ hdup
      refine ⟨h2.1, h2.2.1, h2.2.2.1, h2.2.2.2.1, ?_⟩
      simp only [List.mem_cons]
      right; right; right
      exact h2.2.2.2.2

/-- C1 (amended): for every page whose destination file does not pre-exist,
when the download succeeds on some attempt (after only failed attempts) and
the resulting file's digest is already present in the Duplicate Index, the
just-downloaded file is deleted and the page is marked as a duplicate skip
with the index unchanged — but the duplicate skip is NOT counted toward
`success_count`, so an item all of whose pages resolve as post-download
duplicate skips has a zero success count and is classified by the failure
branch ("download failed / all duplicate-skipped"), not as a full success. -/
theorem download_duplicate_evicted (outs : Nat → AttemptOutcome) (p : PageSpec)
    (idx : Index) (d : Digest) (j : Nat)
    (hpre : p.fileExists = false) (hj : j < 3)
    (hout : outs j = AttemptOutcome.ok (some d))
    (herr : ∀ i, i < j → outs i = AttemptOutcome.err)
    (hdup : (idxLookup idx d).isSome) :
    (processPage outs p idx).duplicate = true ∧
    (processPage outs p idx).downloaded = false ∧
    (processPage outs p idx).succ = 0 ∧
    (processPage outs p idx).idx = idx ∧
    Ev.remove p.name ∈ (processPage outs p idx).trace ∧
    (∀ numUrls, 0 < numUrls → classifyItem 0 numUrls = ItemOutcome.totalFailure) := by
  have hal := attemptLoop_duplicate outs p.name d 3 0 idx
    ⟨j, Nat.zero_le j, by omega, hout, fun i _ hi2 => herr i hi2⟩ hdup
  unfold processPage
  rw [if_neg (by simp [preDupCheck, hpre])]
  dsimp only
  rw [if_neg (by simp [hal.1])]
  refine ⟨hal.1, hal.2.1, hal.2.2.1, hal.2.2.2.1, hal.2.2.2.2, ?_⟩
  intro numUrls hn
  unfold classifyItem
  rw [if_neg (by omega), if_neg (by omega), if_neg (by omega)]

/-- C1 (counterexample): a single-page item whose download succeeds but whose
file's digest is already in the Duplicate Index has the file removed and the
page recorded as a duplicate skip, yet `success_count` stays 0 and the item
lands in the failure branch, not the full-success branch — so the duplicate
skip is not counted toward success in the item-level accounting claimed. -/
theorem duplicate_skip_not_success_counterexample :
    (processPages [(⟨"a.png", false, none⟩, fun _ => AttemptOutcome.ok (some 5))]
      [(5, "other.png")]).succ = 0 ∧
    Ev.remove "a.png" ∈
      (processPages [(⟨"a.png", false, none⟩, fun _ => AttemptOutcome.ok (some 5))]
        [(5, "other.png")]).trace ∧
    classifyItem
      (processPages [(⟨"a.png", false, none⟩, fun _ => AttemptOutcome.ok (some 5))]
        [(5, "other.png")]).succ 1 = ItemOutcome.totalFailure := by
  refine ⟨rfl, ?_, rfl⟩
  simp [processPages, processPage, preDupCheck, attemptLoop, idxLookup, alLookup]

/-- Witness for C1 (amended): a concrete duplicate eviction with the digest
owned by another filename: the page is marked duplicate, contributes no
success, leaves the index unchanged, and the file is removed. -/
theorem download_duplicate_evicted_witness :
    (processPage (fun _ => AttemptOutcome.ok (some 5)) ⟨"a.png", false, none⟩
      [(5, "other.png")]).duplicate = true ∧
    (processPage (fun _ => AttemptOutcome.ok (some 5)) ⟨"a.png", false, none⟩
      [(5, "other.png")]).succ = 0 ∧
    Ev.remove "a.png" ∈
      (processPage (fun _ => AttemptOutcome.ok (some 5)) ⟨"a.png", false, none⟩
        [(5, "other.png")]).trace := by
  have h := download_duplicate_evicted (fun _ => AttemptOutcome.ok (some 5))
    ⟨"a.png", false, none⟩ [(5, "other.png")] 5 0 rfl (by omega) rfl
    (fun i hi => absurd hi (by omega)) (by decide)
  exact ⟨h.1, h.2.2.1, h.2.2.2.2.1⟩

theorem alLookup_eq_some_mem {α β : Type} [DecidableEq α]
    {l : List (α × β)} {k : α} {v : β} (h : alLookup l k = some v) : (k, v) ∈ l := by
  induction l with
  | nil => exact Option.noConfusion h
  | cons e rest ih =>
    rw [alLookup_cons] at h
    by_cases he : e.1 = k
    · rw [if_pos he] at h
      obtain ⟨e1, e2⟩ := e
      cases h
      cases he
      exact List.mem_cons_self _ _
    · rw [if_neg he] at h
      exact List.mem_cons_of_mem e (ih h)

theorem seedFS_covers (fs : FS) (n : String) (c : Content)
    (h : lookupFS fs n = some c) : (idxLookup (seedFS fs) (hashC c)).isSome := by
  have hmem : (n, c) ∈ fs := alLookup_eq_some_mem h
  show (idxLookup ((fs.map fsEntry).foldl seedStep []) (hashC c)).isSome
  rw [foldl_seedStep_lookup]
  have hex : ∃ e ∈ (fs.map fsEntry).reverse,
      (e.isFile && e.hashResult == some (hashC c)) = true := by
    refine ⟨fsEntry (n, c), ?_, by simp [fsEntry]⟩
    rw [List.mem_reverse, List.mem_map]
    exact ⟨(n, c), hmem, rfl⟩
  cases hfind : (fs.map fsEntry).reverse.find?
      (fun e => e.isFile && e.hashResult == some (hashC c)) with
  | some e => rfl
  | none =>
    obtain ⟨e, hemem, hep⟩ := hex
    have h2 := List.find?_eq_none.mp hfind e hemem
    exact absurd hep h2

theorem dlLoopFS_accepted (fetch : String → DLResult) (url name : String) :
    ∀ fuel (fs : FS) (idx : Index),
      (dlLoopFS fetch url name fuel fs idx).status = PageStatus.accepted →
      ∃ c, fetch url = DLResult.success c ∧
        (dlLoopFS fetch url name fuel fs idx).fs = insertFS fs name c := by
  intro fuel
  induction fuel with
  | zero =>
    intro fs idx h
    exact absurd h (by simp [dlLoopFS])
  | succ n ih =>
    intro fs idx h
    unfold dlLoopFS at h ⊢
    cases hf : fetch url with
    | success c =>
      rw [hf] at h
      dsimp only at h ⊢
      by_cases hd : (idxLookup idx (hashC c)).isSome
      · rw [if_pos hd] at h
        exact absurd h (by simp)
      · rw [if_neg hd] at h ⊢
        exact ⟨c, rfl, rfl⟩
    | noContent =>
      rw [hf] at h
      exact absurd h (by simp)
    | err =>
      rw [hf] at h
      dsimp only at h ⊢
      have h2 := ih fs idx h
      rw [hf] at h2
      exact h2

theorem pageStepFS_accepted (fetch : String → DLResult) (url name : String)
    (fs : FS) (idx : Index)
    (h : (pageStepFS fetch url name fs idx).status = PageStatus.accepted) :
    ∃ c, (pageStepFS fetch url name fs idx).fs = insertFS fs name c := by
  unfold pageStepFS at h ⊢
  cases hl : lookupFS fs name with
  | some c =>
    rw [hl] at h
    dsimp only at h ⊢
    by_cases hd : (idxLookup idx (hashC c)).isSome
    · rw [if_pos hd] at h
      exact absurd h (by simp)
    · rw [if_neg hd] at h ⊢
      obtain ⟨c2, _, hfs⟩ := dlLoopFS_accepted fetch url name 3 fs idx h
      exact ⟨c2, hfs⟩
  | none =>
    rw [hl] at h
    dsimp only at h ⊢
    obtain ⟨c2, _, hfs⟩ := dlLoopFS_accepted fetch url name 3 fs idx h
    exact ⟨c2, hfs⟩

theorem lookupFS_insert_isSome (fs : FS) (n m : String) (c : Content)
    (h : (lookupFS fs n).isSome) : (lookupFS (insertFS fs m c) n).isSome :=
  alLookup_insert_isSome fs m n c h

theorem runPagesFS_accepted_preserves (fetch : String → DLResult) :
    ∀ (pages : List (String × String)) (fs : FS) (idx : Index) (n : String),
      (∀ s ∈ (runPagesFS fetch pages fs idx).statuses, s = PageStatus.accepted) →
      (lookupFS fs n).isSome →
      (lookupFS (runPagesFS fetch pages fs idx).fs n).isSome := by
  intro pages
  induction pages with
  | nil =>
    intro fs idx n _ h
    exact h
  | cons pr rest ih =>
    obtain ⟨url, name⟩ := pr
    intro fs idx n hacc h
    have hcons : runPagesFS fetch ((url, name) :: rest) fs idx =
        ⟨(runPagesFS fetch rest (pageStepFS fetch url name fs idx).fs
            (pageStepFS fetch url name fs idx).idx).fs,
         (runPagesFS fetch rest (pageStepFS fetch url name fs idx).fs
            (pageStepFS fetch url name fs idx).idx).idx,
         (pageStepFS fetch url name fs idx).status ::
          (runPagesFS fetch rest (pageStepFS fetch url name fs idx).fs
            (pageStepFS fetch url name fs idx).idx).statuses,
         (pageStepFS fetch url name fs idx).writes +
          (runPagesFS fetch rest (pageStepFS fetch url name fs idx).fs
            (pageStepFS fetch url name fs idx).idx).writes,
         (pageStepFS fetch url name fs idx).downloads +
          (runPagesFS fetch rest (pageStepFS fetch url name fs idx).fs
            (pageStepFS fetch url name fs idx).idx).downloads⟩ := rfl
    rw [hcons] at hacc ⊢
    have hhead : (pageStepFS fetch url name fs idx).status = PageStatus.accepted :=
      hacc _ (List.mem_cons_self _ _)
    obtain ⟨c, hfs⟩ := pageStepFS_accepted fetch url name fs idx hhead
    have htail : ∀ s ∈ (runPagesFS fetch rest (pageStepFS fetch url name fs idx).fs
        (pageStepFS fetch url name fs idx).idx).statuses, s = PageStatus.accepted :=
      fun s hs => hacc s (List.mem_cons_of_mem _ hs)
    apply ih _ _ n htail
    rw [hfs]
    exact lookupFS_insert_isSome fs n name c h

theorem runPagesFS_accepted_names (fetch : String → DLResult) :
    ∀ (pages : List (String × String)) (fs : FS) (idx : Index),
      (∀ s ∈ (runPagesFS fetch pages fs idx).statuses, s = PageStatus.accepted) →
      ∀ pr ∈ pages, (lookupFS (runPagesFS fetch pages fs idx).fs pr.2).isSome := by
  intro pages
  induction pages with
  | nil =>
    intro fs idx _ pr hpr
    cases hpr
  | cons prh rest ih =>
    obtain ⟨url, name⟩ := prh
    intro fs idx hacc pr hpr
    have hcons : runPagesFS fetch ((url, name) :: rest) fs idx =
        ⟨(runPagesFS fetch rest (pageStepFS fetch url name fs idx).fs
            (pageStepFS fetch url name fs idx).idx).fs,
         (runPagesFS fetch rest (pageStepFS fetch url name fs idx).fs
            (pageStepFS fetch url name fs idx).idx).idx,
         (pageStepFS fetch url name fs idx).status ::
          (runPagesFS fetch rest (pageStepFS fetch url name fs idx).fs
            (pageStepFS fetch url name fs idx).idx).statuses,
         (pageStepFS fetch url name fs idx).writes +
          (runPagesFS fetch rest (pageStepFS fetch url name fs idx).fs
            (pageStepFS fetch url name fs idx).idx).writes,
         (pageStepFS fetch url name fs idx).downloads +
          (runPagesFS fetch rest (pageStepFS fetch url name fs idx).fs
            (pageStepFS fetch url name fs idx).idx).downloads⟩ := rfl
    rw [hcons] at hacc ⊢
    have hhead : (pageStepFS fetch url name fs idx).status = PageStatus.accepted :=
      hacc _ (List.mem_cons_self _ _)
    obtain ⟨c, hfs⟩ := pageStepFS_accepted fetch url name fs idx hhead
    have htail : ∀ s ∈ (runPagesFS fetch rest (pageStepFS fetch url name fs idx).fs
        (pageStepFS fetch url name fs idx).idx).statuses, s = PageStatus.accepted :=
      fun s hs => hacc s (List.mem_cons_of_mem _ hs)
    rcases List.mem_cons.mp hpr with heq | hrest
    · subst heq
      apply runPagesFS_accepted_preserves fetch rest _ _ _ htail
      rw [hfs]
      show (alLookup (alInsert fs name c) name).isSome
      rw [alLookup_insert_self]
      rfl
    · exact ih _ _ htail pr hrest

theorem runPagesFS_all_preskipped (fetch : String → DLResult) :
    ∀ (pages : List (String × String)) (fs : FS) (idx : Index),
      (∀ n2 c2, lookupFS fs n2 = some c2 → (idxLookup idx (hashC c2)).isSome) →
      (∀ pr ∈ pages, (lookupFS fs pr.2).isSome) →
      runPagesFS fetch pages fs idx =
        ⟨fs, idx, pages.map (fun _ => PageStatus.preSkipped), 0, 0⟩ := by
  intro pages
  induction pages with
  | nil =>
    intro fs idx _ _
    rfl
  | cons pr rest ih =>
    obtain ⟨url, name⟩ := pr
    intro fs idx hcov hmem
    have hn := hmem (url, name) (List.mem_cons_self _ _)
    obtain ⟨c, hc⟩ := Option.isSome_iff_exists.mp hn
    have hstep : pageStepFS fetch url name fs idx = ⟨fs, idx, .preSkipped, 0, 0⟩ := by
      unfold pageStepFS
      rw [hc]
      dsimp only
      rw [if_pos (hcov name c hc)]
    have hcons : runPagesFS fetch ((url, name) :: rest) fs idx =
        ⟨(runPagesFS fetch rest (pageStepFS fetch url name fs idx).fs
            (pageStepFS fetch url name fs idx).idx).fs,
         (runPagesFS fetch rest (pageStepFS fetch url name fs idx).fs
            (pageStepFS fetch url name fs idx).idx).idx,
         (pageStepFS fetch url name fs idx).status ::
          (runPagesFS fetch rest (pageStepFS fetch url name fs idx).fs
            (pageStepFS fetch url name fs idx).idx).statuses,
         (pageStepFS fetch url name fs idx).writes +
          (runPagesFS fetch rest (pageStepFS fetch url name fs idx).fs
            (pageStepFS fetch url name fs idx).idx).writes,
         (pageStepFS fetch url name fs idx).downloads +
          (runPagesFS fetch rest (pageStepFS fetch url name fs idx).fs
            (pageStepFS fetch url name fs idx).idx).downloads⟩ := rfl
    rw [hcons, hstep]
    dsimp only
    rw [ih fs idx hcov (fun pr2 hpr2 => hmem pr2 (List.mem_cons_of_mem _ hpr2))]
    rfl

/-- C8 (amended): when the first complete run accepts every page as a new
download, a second run against the unchanged source and the resulting
directory performs zero file writes and zero download invocations, leaves
the directory unchanged, and resolves every page as a pre-existing duplicate
skip via the re-seeded Duplicate Index. -/
theorem second_run_idempotent (fetch : String → DLResult)
    (pages : List (String × String)) (fs0 : FS)
    (hall : ∀ s ∈ (runSessionFS fetch pages fs0).statuses, s = PageStatus.accepted) :
    (runSessionFS fetch pages (runSessionFS fetch pages fs0).fs).writes = 0 ∧
    (runSessionFS fetch pages (runSessionFS fetch pages fs0).fs).downloads = 0 ∧
    (runSessionFS fetch pages (runSessionFS fetch pages fs0).fs).fs =
      (runSessionFS fetch pages fs0).fs ∧
    (∀ s ∈ (runSessionFS fetch pages (runSessionFS fetch pages fs0).fs).statuses,
      s = PageStatus.preSkipped) := by
  have hnames : ∀ pr ∈ pages,
      (lookupFS (runSessionFS fetch pages fs0).fs pr.2).isSome :=
    runPagesFS_accepted_names fetch pages fs0 (seedFS fs0) hall
  have hrun : runPagesFS fetch pages (runSessionFS fetch pages fs0).fs
      (seedFS (runSessionFS fetch pages fs0).fs) =
      ⟨(runSessionFS fetch pages fs0).fs, seedFS (runSessionFS fetch pages fs0).fs,
        pages.map (fun _ => PageStatus.preSkipped), 0, 0⟩ :=
    runPagesFS_all_preskipped fetch pages (runSessionFS fetch pages fs0).fs
      (seedFS (runSessionFS fetch pages fs0).fs)
      (fun n c hc => seedFS_covers (runSessionFS fetch pages fs0).fs n c hc)
      hnames
  have hkey : runSessionFS fetch pages (runSessionFS fetch pages fs0).fs =
      ⟨(runSessionFS fetch pages fs0).fs, seedFS (runSessionFS fetch pages fs0).fs,
        pages.map (fun _ => PageStatus.preSkipped), 0, 0⟩ := hrun
  rw [hkey]
  refine ⟨rfl, rfl, rfl, ?_⟩
  intro s hs
  obtain ⟨pr, _, hpr⟩ := List.mem_map.mp hs
  exact hpr.symm

/-- C8 (counterexample): the claim fails for a completed first run in which
two pages carried identical content: the dup-evicted page's destination file
does not exist after the first run, so the second run re-downloads it (one
download invocation, one file write) and evicts it again — not zero new
bytes, and not every page a duplicate skip from an existing destination
file. -/
theorem second_run_counterexample :
    (runSessionFS (fun _ => DLResult.success 7) [("u1", "a.png"), ("u2", "b.png")]
      []).statuses = [PageStatus.accepted, PageStatus.dupEvicted] ∧
    (runSessionFS (fun _ => DLResult.success 7) [("u1", "a.png"), ("u2", "b.png")]
      (runSessionFS (fun _ => DLResult.success 7) [("u1", "a.png"), ("u2", "b.png")]
        []).fs).writes = 1 ∧
    (runSessionFS (fun _ => DLResult.success 7) [("u1", "a.png"), ("u2", "b.png")]
      (runSessionFS (fun _ => DLResult.success 7) [("u1", "a.png"), ("u2", "b.png")]
        []).fs).downloads = 1 ∧
    (runSessionFS (fun _ => DLResult.success 7) [("u1", "a.png"), ("u2", "b.png")]
      (runSessionFS (fun _ => DLResult.success 7) [("u1", "a.png"), ("u2", "b.png")]
        []).fs).statuses = [PageStatus.preSkipped, PageStatus.dupEvicted] := by
  refine ⟨rfl, rfl, rfl, rfl⟩

/-- Witness for C8 (amended): two pages with distinct content are both
accepted on the first run; the second run then writes nothing, downloads
nothing, and skips both pages. -/
theorem second_run_idempotent_witness :
    (runSessionFS (fun u => if u = "u1" then DLResult.success 1 else DLResult.success 2)
      [("u1", "a.png"), ("u2", "b.png")]
      (runSessionFS (fun u => if u = "u1" then DLResult.success 1 else DLResult.success 2)
        [("u1", "a.png"), ("u2", "b.png")] []).fs).writes = 0 ∧
    (runSessionFS (fun u => if u = "u1" then DLResult.success 1 else DLResult.success 2)
      [("u1", "a.png"), ("u2", "b.png")]
      (runSessionFS (fun u => if u = "u1" then DLResult.success 1 else DLResult.success 2)
        [("u1", "a.png"), ("u2", "b.png")] []).fs).downloads = 0 := by
  have h := second_run_idempotent
    (fun u => if u = "u1" then DLResult.success 1 else DLResult.success 2)
    [("u1", "a.png"), ("u2", "b.png")] [] (by decide)
  exact ⟨h.1, h.2.1⟩

/-- C9: with the client handle established, an empty selected list or
disabled downloading returns immediately with no side effects: no error is
raised, the world (directory existence, directory contents, and Duplicate
Index) is returned unchanged, and the event list is empty — no directory
creation, no file read or hash, no network operation, no write. -/
theorem download_images_no_op (enable_download : Bool) (download_count : Nat)
    (pagesOf : RankedItem → List (String × String)) (fetch : String → DLResult)
    (sorted_list : List RankedItem) (w : World)
    (hcond : sorted_list = [] ∨ enable_download = false) :
    download_images true enable_download download_count pagesOf fetch sorted_list w =
      Except.ok (w, ([] : List OrchEv)) := by
  unfold download_images
  rw [if_neg (by simp)]
  rcases hcond with h | h
  · subst h
    rw [if_pos (by simp)]
  · subst h
    rw [if_pos (by simp)]

/-- Witness for C9: with the handle established and downloading disabled, a
non-empty selected list still produces an immediate no-op return. -/
theorem download_images_no_op_witness :
    download_images true false 3 (fun _ => []) (fun _ => DLResult.err)
      [toRankedItem sampleIllustHigh] ⟨false, [("old.png", 9)], [(9, "old.png")]⟩ =
      Except.ok (⟨false, [("old.png", 9)], [(9, "old.png")]⟩, ([] : List OrchEv)) :=
  download_images_no_op false 3 (fun _ => []) (fun _ => DLResult.err)
    [toRankedItem sampleIllustHigh] ⟨false, [("old.png", 9)], [(9, "old.png")]⟩
    (Or.inr rfl)

